import Mathlib

/-!
Shallow embedding of the memristive-reservoir core of `conn2res`
(`conn2res/reservoir.py`), over exact rationals in place of IEEE floats.
Matrices are `Matrix (Fin n) (Fin n) ℚ`; the random draws that the source
obtains from `np.random` are passed in as explicit oracle arguments, so every
definition below is a deterministic function of the code's inputs plus those
draws.
-/

open Matrix

/-- Tolerance used by `np.isclose`: the absolute tolerance passed by
`check_symmetric` (tol = 1e-16). -/
def npAtol : ℚ := 1 / 10 ^ 16

/-- Tolerance used by `np.isclose`: numpy's default relative tolerance 1e-5. -/
def npRtol : ℚ := 1 / 10 ^ 5

/-- Entrywise closeness test of `np.isclose(x, y)`:
`|x - y| <= atol + rtol * |y|`. -/
def npClose (x y : ℚ) : Prop := |x - y| ≤ npAtol + npRtol * |y|

instance (x y : ℚ) : Decidable (npClose x y) := by
  unfold npClose; infer_instance

/-- Embedding of `check_symmetric(a, tol=1e-16)` on a square matrix:
`np.allclose(a, a.T, atol=tol)`, which compares `a[i,j]` against `a[j,i]`
entrywise. -/
def check_symmetric (a : Matrix (Fin n) (Fin n) ℚ) : Bool :=
  decide (∀ i j, npClose (a i j) (a j i))

/-- Strictly lower-triangular part of a matrix, `np.tril(a, -1)`. -/
def trilStrict (a : Matrix (Fin n) (Fin n) ℚ) : Matrix (Fin n) (Fin n) ℚ :=
  fun i j => if j < i then a i j else 0

/-- Strictly upper-triangular part of a matrix, `np.triu(a, 1)`. -/
def triuStrict (a : Matrix (Fin n) (Fin n) ℚ) : Matrix (Fin n) (Fin n) ℚ :=
  fun i j => if i < j then a i j else 0

/-- Embedding of `make_symmetric(a, copy_lower)`:
`np.tril(a,-1) + np.tril(a,-1).T` when `copy_lower` is true, and
`np.triu(a,1) + np.triu(a,1).T` otherwise. -/
def make_symmetric (a : Matrix (Fin n) (Fin n) ℚ) (copyLower : Bool) :
    Matrix (Fin n) (Fin n) ℚ :=
  if copyLower then trilStrict a + (trilStrict a)ᵀ
  else triuStrict a + (triuStrict a)ᵀ

/-- Value-level part of the module function `mask(reservoir, a)`: every entry
of `a` at a position where `reservoir._W` is zero becomes zero.  (The source
mutates `a` in place and returns it; `maskInPlace` below models the heap
effect, this definition models the resulting matrix.) -/
def mask (W a : Matrix (Fin n) (Fin n) ℚ) : Matrix (Fin n) (Fin n) ℚ :=
  fun i j => if W i j = 0 then 0 else a i j

/-- Heap-level embedding of `mask(reservoir, a)`: numpy arrays live in a store
indexed by references; the call writes the masked entries back into the very
array object it was given and returns that same reference. -/
def maskInPlace (W : Matrix (Fin n) (Fin n) ℚ)
    (store : Nat → Matrix (Fin n) (Fin n) ℚ) (r : Nat) :
    (Nat → Matrix (Fin n) (Fin n) ℚ) × Nat :=
  (fun s => if s = r then mask W (store r) else store s, r)

/-- Binarization step of `setW`: `w.astype(bool).astype(int)` followed by
`np.fill_diagonal(w, 0)` — any nonzero entry becomes 1, the diagonal becomes
0. -/
def binarizeZeroDiag (w : Matrix (Fin n) (Fin n) ℚ) : Matrix (Fin n) (Fin n) ℚ :=
  fun i j => if i = j then 0 else if w i j ≠ 0 then 1 else 0

/-- Embedding of `MemristiveReservoir.setW` on square input: binarize, zero the
diagonal, and if the result is not symmetric build the logical-OR of the two
triangles in the strict upper triangle and mirror it down with
`make_symmetric(W, copy_lower=False)`. -/
def setW (w : Matrix (Fin n) (Fin n) ℚ) : Matrix (Fin n) (Fin n) ℚ :=
  let wb := binarizeZeroDiag w
  if check_symmetric wb then wb
  else
    make_symmetric
      (fun i j => if i < j then (if wb i j ≠ 0 ∨ wb j i ≠ 0 then 1 else 0) else 0)
      false

/-- Embedding of `MemristiveReservoir.init_property(mean, std)`: the normal
draw `np.random.normal(mean, std*mean, size=W.shape)` is the oracle argument
`draw`; the result is `make_symmetric(draw) * W` (elementwise product with the
mask). -/
def init_property (W draw : Matrix (Fin n) (Fin n) ℚ) : Matrix (Fin n) (Fin n) ℚ :=
  fun i j => make_symmetric draw true i j * W i j

/-- Diagonal row-sum matrix `N` of `solveV_I`: `np.fill_diagonal(N, np.sum(G,
axis=1))` on a zero matrix. -/
def rowSumDiag (G : Matrix (Fin n) (Fin n) ℚ) : Matrix (Fin n) (Fin n) ℚ :=
  fun i j => if i = j then ∑ k, G i k else 0

/-- Nodal admittance matrix `A = N - G` built by `solveV_I`. -/
def admittance (G : Matrix (Fin n) (Fin n) ℚ) : Matrix (Fin n) (Fin n) ℚ :=
  rowSumDiag G - G

/-- Sub-matrix `A[np.ix_(idx, idx)]` restricted to an index set. -/
def subMatrix (A : Matrix (Fin n) (Fin n) ℚ) (idx : Fin m → Fin n) :
    Matrix (Fin m) (Fin m) ℚ :=
  fun a b => A (idx a) (idx b)

/-- Rational matrix inverse as computed by `numpy.linalg.inv` on an invertible
matrix, here in exact arithmetic: the adjugate divided by the determinant. -/
def matInv (M : Matrix (Fin m) (Fin m) ℚ) : Matrix (Fin m) (Fin m) ℚ :=
  M.det⁻¹ • M.adjugate

/-- Right-hand side `H_I = G[I,E]·V_E + G[I,GR]·V_GR` of `solveV_I`. -/
def H_I (G : Matrix (Fin n) (Fin n) ℚ) (I : Fin nI → Fin n) (E : Fin nE → Fin n)
    (GR : Fin nGR → Fin n) (V_E : Fin nE → ℚ) (V_GR : Fin nGR → ℚ) :
    Fin nI → ℚ :=
  fun a => (∑ b, G (I a) (E b) * V_E b) + (∑ c, G (I a) (GR c) * V_GR c)

/-- Embedding of `MemristiveReservoir.solveV_I(V_E, V_GR, G)`: build the
admittance matrix `A`, restrict to the internal nodes, invert, and apply to
`H_I`. -/
def solveV_I (G : Matrix (Fin n) (Fin n) ℚ) (I : Fin nI → Fin n)
    (E : Fin nE → Fin n) (GR : Fin nGR → Fin n) (V_E : Fin nE → ℚ)
    (V_GR : Fin nGR → ℚ) : Fin nI → ℚ :=
  matInv (subMatrix (admittance G) I) *ᵥ H_I G I E GR V_E V_GR

/-- Nodal-voltage dictionary of `getV`: `{n: v for n, v in zip(nodes,
voltage)}` where `nodes` concatenates `I`, `E`, `GR` and `voltage`
concatenates `V_I`, `V_E`, `V_GR`; a key appearing in several parts resolves
to its last occurrence exactly as repeated dict insertion does, and a missing
key (impossible for a covering partition) defaults to 0. -/
def assembleVoltage (I : Fin nI → Fin n) (E : Fin nE → Fin n)
    (GR : Fin nGR → Fin n) (V_I : Fin nI → ℚ) (V_E : Fin nE → ℚ)
    (V_GR : Fin nGR → ℚ) (k : Fin n) : ℚ :=
  match (List.finRange nGR).find? (fun c => decide (GR c = k)) with
  | some c => V_GR c
  | none =>
    match (List.finRange nE).find? (fun b => decide (E b = k)) with
    | some b => V_E b
    | none =>
      match (List.finRange nI).find? (fun a => decide (I a = k)) with
      | some a => V_I a
      | none => 0

/-- Embedding of `MemristiveReservoir.getV(V_I, V_E, V_GR)`: for every edge
`(i,j)` of `W` the voltage drop `nv[i] - nv[j]` when `j > i` and `nv[j] -
nv[i]` otherwise, then `mask`ed to `W`. -/
def getV (W : Matrix (Fin n) (Fin n) ℚ) (I : Fin nI → Fin n) (E : Fin nE → Fin n)
    (GR : Fin nGR → Fin n) (V_I : Fin nI → ℚ) (V_E : Fin nE → ℚ)
    (V_GR : Fin nGR → ℚ) : Matrix (Fin n) (Fin n) ℚ :=
  let nv := assembleVoltage I E GR V_I V_E V_GR
  mask W (fun i j =>
    if W i j ≠ 0 then (if i < j then nv i - nv j else nv j - nv i) else 0)

/-- Embedding of `MemristiveReservoir.getError(x_0, x_1)` on one entry:
`2*|x_1 - x_0| / (|x_1| + |x_0|)`.  In IEEE arithmetic the entry is NaN when
both arguments are 0; the convergence test below keeps track of that case
separately, since `ℚ` division by zero yields 0 instead. -/
def getError (x0 x1 : ℚ) : ℚ := 2 * |x1 - x0| / (|x1| + |x0|)

/-- Convergence test of `iterate`: the source computes
`max(np.max(..error_V_I..), np.max(..error_V_I..)) < tol` — the same
`error_V_I` twice, so only the voltage error is consulted.  A NaN entry
(both voltages zero) makes the float comparison false, hence the explicit
nonzero-denominator conjunct. -/
def vErrorBelow (x0 x1 : Fin nI → ℚ) (tol : ℚ) : Bool :=
  decide ((∀ i, |x1 i| + |x0 i| ≠ 0) ∧ ∀ i, getError (x0 i) (x1 i) < tol)

/-- Deterministic residue of `MSSNetwork.dG(V, G)`: the probabilities `Pa`,
`Pb` only parameterize the binomial distributions, so the sampled matrices
`Gab = np.random.binomial(Na, Pa)` and `Gba = np.random.binomial(Nb, Pb)` are
taken as oracle arguments; when `W` is symmetric both are symmetrized with
`make_symmetric`, and the returned increment is `dNb * (Gb - Ga)` with
`dNb = Gab - Gba`. -/
def dG_draws (W Ga Gb Gab Gba : Matrix (Fin n) (Fin n) ℚ) :
    Matrix (Fin n) (Fin n) ℚ :=
  let Gab1 := if check_symmetric W then make_symmetric Gab true else Gab
  let Gba1 := if check_symmetric W then make_symmetric Gba true else Gba
  fun i j => (Gab1 i j - Gba1 i j) * (Gb i j - Ga i j)

/-- Embedding of the loop of `MemristiveReservoir.iterate(V_E, tol, iters)`.
The source initializes both guesses to the placeholder string `'guess'`; they
are taken here as the arguments `V_I_0`, `G_0`.  `fuel` counts the remaining
iterations (`iters - n_iters`); each body computes `V = getV(V_I_0, V_E)`,
`G_1 = G + dG(V, G_0)` (the `dG` draws come from the oracle stream `draws`),
`V_I_1 = solveV_I(V_E)` against the unchanged reservoir conductance `G`, and
returns `some (V_I_1, G_1)` when the voltage-error test passes; falling out of
the loop returns `none`, matching the source's implicit `return None`. -/
def iterate (G W : Matrix (Fin n) (Fin n) ℚ) (Ga Gb : Matrix (Fin n) (Fin n) ℚ)
    (I : Fin nI → Fin n) (E : Fin nE → Fin n) (GR : Fin nGR → Fin n)
    (V_E : Fin nE → ℚ) (tol : ℚ) :
    Nat → (Fin nI → ℚ) → Matrix (Fin n) (Fin n) ℚ →
    (Nat → Matrix (Fin n) (Fin n) ℚ × Matrix (Fin n) (Fin n) ℚ) →
    Option ((Fin nI → ℚ) × Matrix (Fin n) (Fin n) ℚ)
  | 0, _, _, _ => none
  | fuel + 1, V_I_0, _G_0, draws =>
    let _V := getV W I E GR V_I_0 V_E (fun _ => 0)
    let G_1 := G + dG_draws W Ga Gb (draws 0).1 (draws 0).2
    let V_I_1 := solveV_I G I E GR V_E (fun _ => 0)
    if vErrorBelow V_I_0 V_I_1 tol then some (V_I_1, G_1)
    else iterate G W Ga Gb I E GR V_E tol fuel V_I_1 G_1 (fun k => draws (k + 1))

/-- Embedding of the `MSSNetwork.Nb` setter: store `value`, then overwrite the
entries where the stored matrix is negative with the corresponding `NMSS`
entries, then overwrite the entries where the stored matrix exceeds `NMSS`
with the corresponding `NMSS` entries. -/
def Nb_set (value NMSS : Matrix (Fin n) (Fin n) ℚ) : Matrix (Fin n) (Fin n) ℚ :=
  let s1 : Matrix (Fin n) (Fin n) ℚ :=
    fun i j => if value i j < 0 then NMSS i j else value i j
  fun i j => if NMSS i j < s1 i j then NMSS i j else s1 i j

/-- Conductance from switch counts, the `MSSNetwork.G` getter:
`Nb * (Gb - Ga) + NMSS * Ga`, elementwise. -/
def conductanceOf (Nb NMSS Ga Gb : Matrix (Fin n) (Fin n) ℚ) :
    Matrix (Fin n) (Fin n) ℚ :=
  fun i j => Nb i j * (Gb i j - Ga i j) + NMSS i j * Ga i j

/-- Switch counts from conductance, the inverse conversion written in
`MSSNetwork.dG`: `(G - NMSS * Ga) / (Gb - Ga)`, masked to `W`.  The source
line reads `mask((G - self.NMSS * self._Ga)/(self._Gb - self._Ga))`, calling
`mask` without its `reservoir` argument — a `TypeError` on every execution;
this definition applies the intended `mask(self, ·)`. -/
def switchCountOf (G NMSS Ga Gb W : Matrix (Fin n) (Fin n) ℚ) :
    Matrix (Fin n) (Fin n) ℚ :=
  mask W (fun i j => (G i j - NMSS i j * Ga i j) / (Gb i j - Ga i j))

/-- Data stored by `MemristiveReservoir.__init__`: the normalized mask and the
three index sets, exactly as given. -/
structure MemReservoir (n nI nE nGR : Nat) where
  W : Matrix (Fin n) (Fin n) ℚ
  I : Fin nI → Fin n
  E : Fin nE → Fin n
  GR : Fin nGR → Fin n

/-- Embedding of `MemristiveReservoir.__init__(w, i_nodes, e_nodes,
gr_nodes)`: normalizes `w` through `setW` and stores the three index sets
unchanged.  The source contains no validation of the partition. -/
def memInit (w : Matrix (Fin n) (Fin n) ℚ) (I : Fin nI → Fin n)
    (E : Fin nE → Fin n) (GR : Fin nGR → Fin n) : MemReservoir n nI nE nGR :=
  ⟨setW w, I, E, GR⟩

/-- Errors numpy can raise in `setW` on a non-square input: a broadcasting
failure inside `np.allclose(a, a.T)`, or an index-out-of-bounds when the
asymmetric branch indexes `w.T` with the upper-triangle indices of `w`. -/
inductive NpErr where
  | broadcastErr : NpErr
  | indexErr : NpErr
deriving DecidableEq

/-- Broadcast comparison `np.allclose(a, a.T)` on an `m × k` matrix given as
an entry function over `ℕ` indices.  Shapes `(m,k)` and `(k,m)` broadcast iff
`m = k`, `m = 1` or `k = 1`; otherwise numpy raises a broadcasting error.  For
`m = 1` the comparison runs over the broadcast `(k,k)` grid comparing
`a[0,j]` with `a[0,i]`; symmetrically for `k = 1`. -/
def allcloseRect (m k : Nat) (f : Nat → Nat → ℚ) : Except NpErr Bool :=
  if m = k then
    .ok (decide (∀ i < m, ∀ j < m, npClose (f i j) (f j i)))
  else if m = 1 then
    .ok (decide (∀ i < k, ∀ j < k, npClose (f 0 j) (f 0 i)))
  else if k = 1 then
    .ok (decide (∀ i < m, ∀ j < m, npClose (f i 0) (f j 0)))
  else .error .broadcastErr

/-- Embedding of `setW` on a possibly non-square `m × k` input, entries given
over `ℕ` indices and the result paired with its numpy shape.  Binarization and
`np.fill_diagonal` proceed on any 2-D array; the symmetry check then either
raises (shapes that do not broadcast), returns the still non-square binarized
matrix unchanged (symmetric branch), or enters the asymmetric branch, where a
square input is symmetrized, an `m × 1` input yields an `m × m` zero matrix
(`np.triu(zeros(m,1),1) + np.triu(zeros(m,1),1).T` broadcasts to `(m,m)`),
and a `1 × k` input with `k ≥ 2` hits an `IndexError` indexing `w.T`. -/
def setWRect (m k : Nat) (w : Nat → Nat → ℚ) :
    Except NpErr ((Nat × Nat) × (Nat → Nat → ℚ)) :=
  let wb : Nat → Nat → ℚ := fun i j => if i = j then 0 else if w i j ≠ 0 then 1 else 0
  match allcloseRect m k wb with
  | .error e => .error e
  | .ok true => .ok ((m, k), wb)
  | .ok false =>
    if m = k then
      .ok ((m, k), fun i j =>
        if i < j then (if wb i j ≠ 0 ∨ wb j i ≠ 0 then 1 else 0)
        else if j < i then (if wb j i ≠ 0 ∨ wb i j ≠ 0 then 1 else 0)
        else 0)
    else if k = 1 then .ok ((m, m), fun _ _ => 0)
    else .error .indexErr

/-- Fully connected 3-node triangle mask (and raw connectivity). -/
def triW : Matrix (Fin 3) (Fin 3) ℚ := !![0, 1, 1; 1, 0, 1; 1, 1, 0]

/-- Unit conductances on the triangle edges. -/
def triG : Matrix (Fin 3) (Fin 3) ℚ := !![0, 1, 1; 1, 0, 1; 1, 1, 0]

/-- Internal node set of the triangle scenario: node 0. -/
def triI : Fin 1 → Fin 3 := ![0]

/-- External node set of the triangle scenario: node 1. -/
def triE : Fin 1 → Fin 3 := ![1]

/-- Grounded node set of the triangle scenario: node 2. -/
def triGR : Fin 1 → Fin 3 := ![2]

/-- Zero oracle stream for the binomial draws of `dG`. -/
def zeroDraws : Nat → Matrix (Fin 3) (Fin 3) ℚ × Matrix (Fin 3) (Fin 3) ℚ :=
  fun _ => (0, 0)

/-- Constructor field `_Ga = mask(self, np.divide(self.Woff, self.NMSS))` of
`MSSNetwork.__init__`, with `Woff` and `NMSS` the `init_property` fields built
from the oracle draws `dWoff` and `dNMSS`. -/
def Ga_of (W dWoff dNMSS : Matrix (Fin n) (Fin n) ℚ) : Matrix (Fin n) (Fin n) ℚ :=
  mask W (fun i j => init_property W dWoff i j / init_property W dNMSS i j)

/-- Constructor field `_Gb = mask(self, np.divide(self.Won, self.NMSS))` of
`MSSNetwork.__init__`. -/
def Gb_of (W dWon dNMSS : Matrix (Fin n) (Fin n) ℚ) : Matrix (Fin n) (Fin n) ℚ :=
  mask W (fun i j => init_property W dWon i j / init_property W dNMSS i j)

/-- Constructor field `_G = self.Nb * (self._Gb - self._Ga) + self.NMSS *
self._Ga` of `MSSNetwork.__init__`, i.e. `conductanceOf` applied to the
freshly drawn `Nb` and `NMSS` fields. -/
def G_of (W dNb dNMSS dWoff dWon : Matrix (Fin n) (Fin n) ℚ) :
    Matrix (Fin n) (Fin n) ℚ :=
  conductanceOf (init_property W dNb) (init_property W dNMSS)
    (Ga_of W dWoff dNMSS) (Gb_of W dWon dNMSS)

/-! ### Helper lemmas -/

theorem matInv_eq_inv (M : Matrix (Fin m) (Fin m) ℚ) : matInv M = M⁻¹ := by
  rw [matInv, Matrix.inv_def, Ring.inverse_eq_inv]

theorem tri_solveV_I (V_GR : Fin 1 → ℚ) (h : V_GR 0 = 0) :
    solveV_I triG triI triE triGR ![1] V_GR = ![1 / 2] := by
  funext a
  fin_cases a
  simp [solveV_I, matInv, Matrix.det_fin_one, Matrix.adjugate_fin_one,
    subMatrix, admittance, rowSumDiag, H_I, Matrix.mulVec, dotProduct,
    Fin.sum_univ_succ, Matrix.sub_apply, triG, triI, triE, triGR, h]
  norm_num

/-- C1: for every conductance matrix `G`, external voltages `V_E` and grounded
voltages `V_GR` with the internal-internal admittance sub-matrix invertible,
`solveV_I` returns the solution of `A_II · V_I = G[I,E]·V_E + G[I,GR]·V_GR`,
where `A` has the row sums of `G` on the diagonal and `-G` off it; and on the
fully connected triangle with one internal, one external and one grounded
node, unit conductances, `V_E = 1` and `V_GR = 0`, the internal voltage is
`1/2`. -/
theorem C1_solveV_I_correct :
    (∀ (n nI nE nGR : Nat) (G : Matrix (Fin n) (Fin n) ℚ)
      (I : Fin nI → Fin n) (E : Fin nE → Fin n) (GR : Fin nGR → Fin n)
      (V_E : Fin nE → ℚ) (V_GR : Fin nGR → ℚ),
      (subMatrix (admittance G) I).det ≠ 0 →
      subMatrix (admittance G) I *ᵥ solveV_I G I E GR V_E V_GR
        = H_I G I E GR V_E V_GR) ∧
    solveV_I triG triI triE triGR ![1] ![0] = ![1 / 2] := by
  constructor
  · intro n nI nE nGR G I E GR V_E V_GR hdet
    rw [solveV_I, matInv_eq_inv, Matrix.mulVec_mulVec,
      Matrix.mul_nonsing_inv _ (isUnit_iff_ne_zero.mpr hdet), Matrix.one_mulVec]
  · exact tri_solveV_I ![0] rfl

/-- C1 witness: the general solver equation applied to the concrete triangle
scenario, with the invertibility hypothesis discharged by computation. -/
theorem C1_solveV_I_correct_witness :
    subMatrix (admittance triG) triI *ᵥ solveV_I triG triI triE triGR ![1] ![0]
      = H_I triG triI triE triGR ![1] ![0] :=
  C1_solveV_I_correct.1 3 1 1 1 triG triI triE triGR ![1] ![0] (by
    rw [Matrix.det_fin_one]
    simp [subMatrix, admittance, rowSumDiag, Matrix.sub_apply, triG, triI,
      Fin.sum_univ_succ])

theorem binary_close_eq {x y : ℚ} (hx : x = 0 ∨ x = 1) (hy : y = 0 ∨ y = 1)
    (h : npClose x y) : x = y := by
  rcases hx with hx | hx <;> rcases hy with hy | hy <;> subst hx <;> subst hy <;>
    first
      | rfl
      | (exfalso
         simp only [npClose, npAtol, npRtol] at h
         norm_num at h)

/-- C2 (code bug): the `Nb` setter is claimed to clamp to `[0, NMSS]` with
entries below 0 stored as 0; the code instead stores the `NMSS` entry there:
assigning `-1` where `NMSS = 10` stores `10`, not `0`. -/
theorem C2_Nb_set_negative_stored_as_NMSS :
    Nb_set (fun _ _ => (-1 : ℚ)) (fun _ _ => 10) (0 : Fin 1) (0 : Fin 1) = 10 ∧
    (10 : ℚ) ≠ 0 := by
  constructor
  · norm_num [Nb_set]
  · norm_num

/-- C3: for every square raw connectivity matrix `w`, `setW w` is symmetric,
has zero diagonal, has all entries in `{0, 1}`, and for `i ≠ j` has a 1 at
`(i,j)` exactly when `w i j ≠ 0` or `w j i ≠ 0`. -/
theorem C3_setW_normalized (n : Nat) (w : Matrix (Fin n) (Fin n) ℚ) :
    (∀ i j, setW w i j = setW w j i) ∧
    (∀ i, setW w i i = 0) ∧
    (∀ i j, setW w i j = 0 ∨ setW w i j = 1) ∧
    (∀ i j, i ≠ j → (setW w i j = 1 ↔ w i j ≠ 0 ∨ w j i ≠ 0)) := by
  set wb := binarizeZeroDiag w with hwb
  have hb : ∀ i j, wb i j = 0 ∨ wb i j = 1 := by
    intro i j
    rw [hwb]
    unfold binarizeZeroDiag
    split_ifs <;> simp
  have hdiag : ∀ i, wb i i = 0 := by
    intro i; rw [hwb]; simp [binarizeZeroDiag]
  have hone : ∀ i j, i ≠ j → (wb i j = 1 ↔ w i j ≠ 0) := by
    intro i j hij
    rw [hwb]
    unfold binarizeZeroDiag
    rw [if_neg hij]
    split_ifs with h
    · simp [h]
    · simp [h]
  by_cases hs : check_symmetric wb = true
  · have hW : setW w = wb := by
      rw [setW, ← hwb, if_pos hs]
    have hclose : ∀ i j, npClose (wb i j) (wb j i) := by
      have := of_decide_eq_true (hs : decide (∀ i j, npClose (wb i j) (wb j i)) = true)
      exact this
    have hsym : ∀ i j, wb i j = wb j i := fun i j =>
      binary_close_eq (hb i j) (hb j i) (hclose i j)
    refine ⟨?_, ?_, ?_, ?_⟩
    · intro i j; rw [hW]; exact hsym i j
    · intro i; rw [hW]; exact hdiag i
    · intro i j; rw [hW]; exact hb i j
    · intro i j hij
      rw [hW]
      constructor
      · intro h1; exact Or.inl ((hone i j hij).mp h1)
      · rintro (h1 | h1)
        · exact (hone i j hij).mpr h1
        · rw [hsym i j]; exact (hone j i hij.symm).mpr h1
  · have hW : setW w = make_symmetric
        (fun i j => if i < j then (if wb i j ≠ 0 ∨ wb j i ≠ 0 then 1 else 0) else 0)
        false := by
      rw [setW, ← hwb, if_neg hs]
    have happ : ∀ i j, setW w i j =
        (if i < j then (if wb i j ≠ 0 ∨ wb j i ≠ 0 then 1 else 0) else 0) +
        (if j < i then (if wb j i ≠ 0 ∨ wb i j ≠ 0 then 1 else 0) else 0) := by
      intro i j
      rw [hW]
      simp only [make_symmetric, Bool.false_eq_true, if_false, Matrix.add_apply,
        triuStrict, Matrix.transpose_apply]
      rcases lt_trichotomy i j with h | h | h
      · rw [if_pos h, if_pos h, if_neg (asymm h), if_neg (asymm h)]
      · subst h; rw [if_neg (lt_irrefl i), if_neg (lt_irrefl i)]
      · rw [if_neg (asymm h), if_neg (asymm h), if_pos h, if_pos h]
    have hzero : ∀ i j, i ≠ j → (wb i j ≠ 0 ↔ w i j ≠ 0) := by
      intro i j hij
      rcases hb i j with h | h
      · rw [h]
        simp only [ne_eq, not_true_eq_false, false_iff, not_not]
        by_contra hw0
        exact absurd ((hone i j hij).mpr hw0) (by rw [h]; norm_num)
      · rw [h]
        simp only [ne_eq, one_ne_zero, not_false_eq_true, true_iff]
        exact (hone i j hij).mp h
    refine ⟨?_, ?_, ?_, ?_⟩
    · intro i j; rw [happ i j, happ j i, add_comm]
    · intro i; rw [happ i i]; simp
    · intro i j
      rw [happ i j]
      rcases lt_trichotomy i j with h | h | h
      · rw [if_pos h, if_neg (asymm h), add_zero]
        split_ifs <;> simp
      · subst h; simp
      · rw [if_neg (asymm h), if_pos h, zero_add]
        split_ifs <;> simp
    · intro i j hij
      rw [happ i j]
      rcases lt_or_gt_of_ne hij with h | h
      · rw [if_pos h, if_neg (asymm h), add_zero]
        constructor
        · intro h1
          by_cases hor : wb i j ≠ 0 ∨ wb j i ≠ 0
          · rcases hor with hc | hc
            · exact Or.inl ((hzero i j hij).mp hc)
            · exact Or.inr ((hzero j i hij.symm).mp hc)
          · rw [if_neg hor] at h1
            exact absurd h1 (by norm_num)
        · intro h1
          have hor : wb i j ≠ 0 ∨ wb j i ≠ 0 := by
            rcases h1 with hc | hc
            · exact Or.inl ((hzero i j hij).mpr hc)
            · exact Or.inr ((hzero j i hij.symm).mpr hc)
          rw [if_pos hor]
      · rw [if_neg (asymm h), if_pos h, zero_add]
        constructor
        · intro h1
          by_cases hor : wb j i ≠ 0 ∨ wb i j ≠ 0
          · rcases hor with hc | hc
            · exact Or.inr ((hzero j i hij.symm).mp hc)
            · exact Or.inl ((hzero i j hij).mp hc)
          · rw [if_neg hor] at h1
            exact absurd h1 (by norm_num)
        · intro h1
          have hor : wb j i ≠ 0 ∨ wb i j ≠ 0 := by
            rcases h1 with hc | hc
            · exact Or.inr ((hzero i j hij).mpr hc)
            · exact Or.inl ((hzero j i hij.symm).mpr hc)
          rw [if_pos hor]

/-- C3 witness: the normalization applied to a concrete asymmetric directed
input, where the edge present in one direction only appears symmetrically in
the output. -/
theorem C3_setW_normalized_witness :
    setW !![(0 : ℚ), 5; 0, 0] 0 1 = 1 :=
  ((C3_setW_normalized 2 !![(0 : ℚ), 5; 0, 0]).2.2.2 0 1 (by decide)).mpr
    (Or.inl (by norm_num))

/-- C4 (code bug): the conversion formulas of the `G` getter and of `dG`
round-trip — `switchCountOf (conductanceOf Nb) = Nb` for any `Nb` masked to
`W`, wherever `Gb ≠ Ga` — but the source's inverse conversion calls `mask`
without its `reservoir` argument and raises a `TypeError` before computing
anything; the identity is proved here for the conversion with the intended
`mask(self, ·)`. -/
theorem C4_roundtrip (n : Nat) (W Nb NMSS Ga Gb : Matrix (Fin n) (Fin n) ℚ)
    (hmask : ∀ i j, W i j = 0 → Nb i j = 0) :
    ∀ i j, Gb i j ≠ Ga i j →
      switchCountOf (conductanceOf Nb NMSS Ga Gb) NMSS Ga Gb W i j = Nb i j := by
  intro i j hne
  by_cases hw : W i j = 0
  · simp [switchCountOf, mask, hw, hmask i j hw]
  · have h : Gb i j - Ga i j ≠ 0 := sub_ne_zero.mpr hne
    simp only [switchCountOf, mask, conductanceOf, hw, if_neg hw, if_false]
    rw [add_sub_cancel_right, mul_div_assoc, div_self h, mul_one]

/-- C4 witness: the round-trip at a concrete single-edge network with
`Nb = 3`, `NMSS = 10`, `Ga = 2`, `Gb = 5`. -/
theorem C4_roundtrip_witness :
    switchCountOf (conductanceOf !![(3 : ℚ)] !![10] !![2] !![5]) !![10] !![2]
        !![5] !![1] 0 0 = !![(3 : ℚ)] 0 0 :=
  C4_roundtrip 1 !![1] !![3] !![10] !![2] !![5] (by decide) 0 0 (by decide)

theorem H_I_zero_input (G : Matrix (Fin n) (Fin n) ℚ) (I : Fin nI → Fin n)
    (E : Fin nE → Fin n) (GR : Fin nGR → Fin n) :
    H_I G I E GR (fun _ => 0) (fun _ => 0) = fun _ => 0 := by
  funext a
  simp [H_I]

theorem solveV_I_zero_input (G : Matrix (Fin n) (Fin n) ℚ) (I : Fin nI → Fin n)
    (E : Fin nE → Fin n) (GR : Fin nGR → Fin n) :
    solveV_I G I E GR (fun _ => 0) (fun _ => 0) = fun _ => 0 := by
  rw [solveV_I, H_I_zero_input]
  have h : (fun _ : Fin nI => (0 : ℚ)) = (0 : Fin nI → ℚ) := rfl
  rw [h, Matrix.mulVec_zero]

theorem iterate_none_of_test_false (G W Ga Gb : Matrix (Fin n) (Fin n) ℚ)
    (I : Fin nI → Fin n) (E : Fin nE → Fin n) (GR : Fin nGR → Fin n)
    (V_E : Fin nE → ℚ) (tol : ℚ)
    (h : vErrorBelow (solveV_I G I E GR V_E (fun _ => 0))
      (solveV_I G I E GR V_E (fun _ => 0)) tol = false) :
    ∀ (fuel : Nat) (G_0 : Matrix (Fin n) (Fin n) ℚ)
      (draws : Nat → Matrix (Fin n) (Fin n) ℚ × Matrix (Fin n) (Fin n) ℚ),
      iterate G W Ga Gb I E GR V_E tol fuel
        (solveV_I G I E GR V_E (fun _ => 0)) G_0 draws = none := by
  intro fuel
  induction fuel with
  | zero => intro G_0 draws; rfl
  | succ k ih =>
    intro G_0 draws
    rw [iterate]
    simp only [h, Bool.false_eq_true, if_false]
    exact ih _ _

/-- C5 (code bug): `iterate` is claimed to return the best-effort `(V_I, G)`
with a non-converged flag when the iteration cap is hit, raising no exception;
the source in fact initializes its guesses to the string `'guess'` (an
`AttributeError` on first use) and, under the most charitable repair, falls off
the loop returning `None` — no result and no flag.  Concretely: on the
triangle with zero external input the voltage error is `0/0` (NaN, never below
tolerance), so all 10 iterations run and the embedded call returns `none`. -/
theorem C5_iterate_nonconvergence_returns_none :
    iterate triG triW 0 0 triI triE triGR (fun _ => 0) (1 / 100000) 10 ![1] 0
      zeroDraws = none := by
  have hs := solveV_I_zero_input triG triI triE triGR
  have h0 : vErrorBelow (solveV_I triG triI triE triGR (fun _ => 0) (fun _ => 0))
      (solveV_I triG triI triE triGR (fun _ => 0) (fun _ => 0))
      (1 / 100000) = false := by
    rw [hs, vErrorBelow, decide_eq_false_iff_not]
    intro hcon
    exact hcon.1 0 (by norm_num)
  have h1 : vErrorBelow ![1]
      (solveV_I triG triI triE triGR (fun _ => 0) (fun _ => 0))
      (1 / 100000) = false := by
    rw [hs, vErrorBelow, decide_eq_false_iff_not]
    intro hcon
    have hc := hcon.2 0
    norm_num [getError] at hc
  rw [show (10 : Nat) = 9 + 1 from rfl, iterate]
  simp only [h1, Bool.false_eq_true, if_false]
  exact iterate_none_of_test_false triG triW 0 0 triI triE triGR (fun _ => 0)
    (1 / 100000) h0 9 _ _

/-- C6 (code bug): the loop of `iterate` is claimed to stop early only when
both the voltage error and the conductance error fall below tolerance; the
source computes `error_G` but tests `max(max(error_V_I), max(error_V_I))`,
so a small voltage change alone terminates the loop.  Concretely: started at
the exact solution `V_I = 1/2` with conductance guess `G_0 = 0`, the embedded
loop declares convergence on the first iteration and returns, although the
relative conductance error `getError 0 1 = 2` is far above the tolerance. -/
theorem C6_iterate_converges_despite_G_error :
    iterate triG triW 0 0 triI triE triGR ![1] (1 / 100000) 10 ![1 / 2] 0
      zeroDraws = some (![1 / 2], triG) ∧
    (1 / 100000 : ℚ) ≤ getError ((0 : Matrix (Fin 3) (Fin 3) ℚ) 0 1) (triG 0 1) := by
  constructor
  · have hs : solveV_I triG triI triE triGR ![1] (fun _ => 0) = ![1 / 2] :=
      tri_solveV_I (fun _ => 0) rfl
    have ht : vErrorBelow ![(1 : ℚ) / 2] ![(1 : ℚ) / 2] (1 / 100000) = true := by
      rw [vErrorBelow, decide_eq_true_eq]
      constructor
      · intro i
        fin_cases i
        norm_num
      · intro i
        fin_cases i
        norm_num [getError]
    have hdG : triG + dG_draws triW 0 0 (zeroDraws 0).1 (zeroDraws 0).2 = triG := by
      ext i j
      simp [dG_draws, zeroDraws, Matrix.add_apply, Matrix.zero_apply]
    rw [show (10 : Nat) = 9 + 1 from rfl, iterate]
    simp only [hs, ht, if_true, hdG]
  · norm_num [getError, triG]

/-- C7: masking invariant — wherever `W i j = 0`, every property matrix
produced by `init_property` (vA, vB, tc, NMSS, Woff, Won and the initial Nb
all arise this way, for every mean and noise level, i.e. for every draw), the
derived conductances `Ga`, `Gb` and `G` of the `MSSNetwork` constructor, the
voltage-drop matrix returned by `getV`, and the increment returned by `dG`
are all exactly zero at `(i, j)`. -/
theorem C7_masking_invariant (n nI nE nGR : Nat)
    (W draw dWoff dWon dNMSS dNb Gab Gba : Matrix (Fin n) (Fin n) ℚ)
    (I : Fin nI → Fin n) (E : Fin nE → Fin n) (GR : Fin nGR → Fin n)
    (V_I : Fin nI → ℚ) (V_E : Fin nE → ℚ) (V_GR : Fin nGR → ℚ)
    (i j : Fin n) (hW : W i j = 0) :
    init_property W draw i j = 0 ∧
    Ga_of W dWoff dNMSS i j = 0 ∧
    Gb_of W dWon dNMSS i j = 0 ∧
    G_of W dNb dNMSS dWoff dWon i j = 0 ∧
    getV W I E GR V_I V_E V_GR i j = 0 ∧
    dG_draws W (Ga_of W dWoff dNMSS) (Gb_of W dWon dNMSS) Gab Gba i j = 0 := by
  have hGa : Ga_of W dWoff dNMSS i j = 0 := by simp [Ga_of, mask, hW]
  have hGb : Gb_of W dWon dNMSS i j = 0 := by simp [Gb_of, mask, hW]
  refine ⟨?_, hGa, hGb, ?_, ?_, ?_⟩
  · simp [init_property, hW]
  · simp [G_of, conductanceOf, init_property, hW]
  · simp [getV, mask, hW]
  · simp only [dG_draws, hGa, hGb, sub_self, mul_zero]

/-- C7 witness: the masking invariant applied to the triangle mask at the
off-mask diagonal entry `(0,0)`, with zero draws and zero voltages. -/
theorem C7_masking_invariant_witness :
    init_property triW 0 0 0 = 0 ∧
    Ga_of triW 0 0 0 0 = 0 ∧
    Gb_of triW 0 0 0 0 = 0 ∧
    G_of triW 0 0 0 0 0 0 = 0 ∧
    getV triW triI triE triGR ![0] ![0] ![0] 0 0 = 0 ∧
    dG_draws triW (Ga_of triW 0 0) (Gb_of triW 0 0) 0 0 0 0 = 0 :=
  C7_masking_invariant 3 1 1 1 triW 0 0 0 0 0 0 0 triI triE triGR ![0] ![0]
    ![0] 0 0 (by norm_num [triW])

/-- C8 counterexample: constructing a reservoir whose internal and external
sets both equal `{0}` (overlapping, and leaving node 2 uncovered) succeeds
and stores the sets unchanged — the constructor contains no partition check
and no PartitionError exists anywhere in the code. -/
theorem C8_counterexample_invalid_partition_accepted :
    (memInit triW triI triI triGR).I = triI ∧
    (memInit triW triI triI triGR).E = triI ∧
    (memInit triW triI triI triGR).GR = triGR :=
  ⟨rfl, rfl, rfl⟩

/-- C8 amended: construction never validates the partition — for every triple
of index sets, pairwise disjoint and covering or not, `__init__` succeeds and
stores the normalized mask and the given sets unchanged; no PartitionError is
ever raised (none exists in the code). -/
theorem C8_init_accepts_any_partition (n nI nE nGR : Nat)
    (w : Matrix (Fin n) (Fin n) ℚ) (I : Fin nI → Fin n) (E : Fin nE → Fin n)
    (GR : Fin nGR → Fin n) :
    (memInit w I E GR).W = setW w ∧ (memInit w I E GR).I = I ∧
    (memInit w I E GR).E = E ∧ (memInit w I E GR).GR = GR :=
  ⟨rfl, rfl, rfl, rfl⟩

theorem setWRect_one_three :
    setWRect 1 3 (fun _ _ => 0) = .ok ((1, 3), fun _ _ => (0 : ℚ)) := by
  have hwb : (fun (i j : Nat) =>
      if i = j then (0 : ℚ) else if (fun _ _ => (0 : ℚ)) i j ≠ 0 then 1 else 0)
      = fun _ _ => (0 : ℚ) := by
    funext i j
    split_ifs <;> simp_all
  have ha : allcloseRect 1 3 (fun _ _ => (0 : ℚ)) = .ok true := by
    rw [allcloseRect]
    norm_num [npClose, npAtol, npRtol]
  simp only [setWRect, hwb, ha]

/-- C9 counterexample: the claim says a non-square input always fails with a
ShapeError and never yields a normalized mask; but `setW` on the non-square
1×3 zero matrix takes the symmetric branch (numpy broadcasts the `allclose`
comparison) and returns the 1×3 binarized matrix with no error at all — and
no ShapeError exists anywhere in the code (`check_square` is never called). -/
theorem C9_counterexample_nonsquare_mask_returned :
    setWRect 1 3 (fun _ _ => 0) = .ok ((1, 3), fun _ _ => (0 : ℚ)) :=
  setWRect_one_three

/-- C9 amended: the connectivity normalization performs no squareness check
(`check_square` exists but has no caller, and no ShapeError exists): a
non-square `m × k` input with `m, k ≥ 2` fails only with numpy's generic
broadcasting error raised inside the symmetry check, while a 1×n input that
passes the broadcast comparison is returned unchanged as a non-square mask
with no error. -/
theorem C9_no_shape_validation :
    (∀ (m k : Nat) (w : Nat → Nat → ℚ), 2 ≤ m → 2 ≤ k → m ≠ k →
      setWRect m k w = .error .broadcastErr) ∧
    setWRect 1 3 (fun _ _ => 0) = .ok ((1, 3), fun _ _ => (0 : ℚ)) := by
  constructor
  · intro m k w hm hk hne
    have h1 : m ≠ 1 := by omega
    have h2 : k ≠ 1 := by omega
    simp only [setWRect, allcloseRect, if_neg hne, if_neg h1, if_neg h2]
  · exact setWRect_one_three

/-- C9 witness: the broadcasting failure on a concrete 2×3 input. -/
theorem C9_no_shape_validation_witness :
    setWRect 2 3 (fun _ _ => 1) = .error .broadcastErr :=
  C9_no_shape_validation.1 2 3 (fun _ _ => 1) (by norm_num) (by norm_num)
    (by norm_num)

/-- C10: the module-level `mask(reservoir, a)` mutates its argument in place:
in the store model it returns the very reference it was given, the array at
that reference afterwards holds the masked entries — zero wherever `W` is
zero, the original value elsewhere — and no other array changes; so every
call through `mask` (as in `getV` and `dG`) modifies the array object the
caller passed rather than leaving it unchanged. -/
theorem C10_mask_mutates_argument (n : Nat) (W : Matrix (Fin n) (Fin n) ℚ)
    (store : Nat → Matrix (Fin n) (Fin n) ℚ) (r : Nat) :
    (maskInPlace W store r).2 = r ∧
    (maskInPlace W store r).1 r = mask W (store r) ∧
    (∀ i j, W i j = 0 → (maskInPlace W store r).1 r i j = 0) ∧
    (∀ i j, W i j ≠ 0 → (maskInPlace W store r).1 r i j = store r i j) ∧
    (∀ s, s ≠ r → (maskInPlace W store r).1 s = store s) := by
  refine ⟨rfl, by simp [maskInPlace], ?_, ?_, ?_⟩
  · intro i j h
    simp [maskInPlace, mask, h]
  · intro i j h
    simp [maskInPlace, mask, h]
  · intro s hs
    simp [maskInPlace, hs]

/-- C10 witness: masking a 1×1 array holding 5 through an all-zero mask
overwrites the caller's array entry with 0 in place. -/
theorem C10_mask_mutates_argument_witness :
    (maskInPlace (0 : Matrix (Fin 1) (Fin 1) ℚ) (fun _ => !![5]) 0).1 0 0 0 = 0 :=
  (C10_mask_mutates_argument 1 0 (fun _ => !![5]) 0).2.2.1 0 0 rfl
